import Mathlib

/-!
A shallow embedding of the tiered-storage core of the memos.as repository,
with theorems checking the natural-language specification against the code.

Sources embedded here:
* app/services/redis_lock.py          (RedisLock: acquire, release)
* app/background_worker.py            (delete_embedding_with_retry, process_expired_memories_once)
* app/main.py                         (store_memory, store_memory_by_tier, offer_knowledge)
* app/services/postgres_client.py     (store_memory, update_memory_embedding_id,
                                       create_knowledge_share_offer, get_knowledge_share_request_by_id)
* app/services/neo4j_client.py        (create_memory_node, _create_concept_relationship,
                                       in-memory fallback store)
* app/services/redis_client.py        (invalidate_memory_caches, cache key construction)
* app/services/redis_utils.py         (scan_iter, modelled as key filtering)

Machine floats (confidence scores) are modelled as rationals; timestamps and
millisecond durations as naturals; Python dicts keyed by ids as association
lists; Redis keyspaces as lists of key/value pairs.
-/

namespace MemOS

/-! ### Redis string keyspace

The Redis commands used by the lock (GET, DEL, SET NX) and by the cache
invalidation (SCAN, DEL) act on the string keyspace, modelled as an
association list of key/value pairs.  TTLs are not modelled: none of the
claims under verification mentions expiry of a redis key.
-/

/-- A Redis string keyspace: association list from key to value. -/
def KV : Type := List (String × String)

/-- Redis GET: the value stored under a key, if present. -/
def kvGet (kv : KV) (k : String) : Option String :=
  (kv.find? (fun p => p.1 = k)).map Prod.snd

/-- Redis DEL: remove every pair stored under the key. -/
def kvDel (kv : KV) (k : String) : KV :=
  kv.filter (fun p => p.1 ≠ k)

/-- Redis SET key value NX: set only if the key is absent.  Returns the new
keyspace and whether the set happened (the truthy reply tested on line 63 of
redis_lock.py). -/
def kvSetNX (kv : KV) (k v : String) : KV × Bool :=
  match kvGet kv k with
  | some _ => (kv, false)
  | none => ((k, v) :: kv, true)

/-! ### RedisLock (app/services/redis_lock.py)

A RedisLock instance is constructed with a key and a TTL; its owner_id is
minted once, in init, line 21: self.owner_id = str(uuid.uuid4()).
-/

/-- The fields of a RedisLock instance set by init (redis_lock.py lines 17-21). -/
structure RedisLock where
  key : String
  ttl_ms : Nat
  owner_id : String
  deriving DecidableEq, Repr

/-- Constructor: init mints the owner token from a fresh uuid4 value, once per
instance (redis_lock.py line 21).  The uuid is passed in explicitly, standing
for the random draw. -/
def mkRedisLock (uuid : String) (key : String) (ttl_ms : Nat) : RedisLock :=
  { key := key, ttl_ms := ttl_ms, owner_id := uuid }

/-- One conditional-set attempt of acquire (redis_lock.py line 62 and lines
74-76): SET key owner_id NX PX ttl.  The value written is the instance field
owner_id; returns the updated keyspace and whether the lock was taken. -/
def RedisLock.tryAcquire (lock : RedisLock) (kv : KV) : KV × Bool :=
  kvSetNX kv lock.key lock.owner_id

/-- The release path (redis_lock.py lines 83-111).  Both the Lua script
(lines 24-30: delete only when GET key equals the caller's owner id) and the
non-Lua fallback (lines 100-108: compare current owner, then delete) have the
same sequential semantics: delete the key and report true exactly when the
stored value equals this instance's owner_id, otherwise leave the keyspace
unchanged and report false. -/
def RedisLock.release (lock : RedisLock) (kv : KV) : KV × Bool :=
  if kvGet kv lock.key = some lock.owner_id then (kvDel kv lock.key, true)
  else (kv, false)

/-! ### Blocking acquire timing (redis_lock.py lines 45-81)

The blocking path of acquire is a loop: attempt the conditional set; on
success return true; otherwise, when a finite timeout is configured and the
monotonic clock shows at least that much elapsed time, return false;
otherwise sleep for retry_delay and loop.  The loop is embedded as a
fuel-indexed function over two oracles: trySet n is the outcome of the
conditional set on loop iteration n, and elapsed n is the monotonic elapsed
time (ms) observed at the timeout check of iteration n.  A result of none
means the fuel ran out with the loop still running. -/
def acquireLoop (trySet : Nat → Bool) (elapsed : Nat → Nat)
    (timeout_ms : Option Nat) : Nat → Nat → Option Bool
  | 0, _ => none
  | fuel + 1, n =>
    if trySet n then some true
    else
      match timeout_ms with
      | some t => if t ≤ elapsed n then some false
                  else acquireLoop trySet elapsed (some t) fuel (n + 1)
      | none => acquireLoop trySet elapsed none fuel (n + 1)

/-- Full acquire (redis_lock.py lines 45-81): fast-path conditional set
(line 62); when it fails and blocking is false, return false (lines 66-67);
otherwise enter the retry loop, whose attempts are numbered from 1 (the
fast-path set is attempt 0). -/
def acquire (trySet : Nat → Bool) (elapsed : Nat → Nat)
    (blocking : Bool) (timeout_ms : Option Nat) (fuel : Nat) : Option Bool :=
  if trySet 0 then some true
  else if blocking = false then some false
  else acquireLoop trySet elapsed timeout_ms fuel 1

/-! ### Keyspace lemmas -/

theorem kvGet_cons_self (k v : String) (kv : KV) : kvGet ((k, v) :: kv) k = some v := by
  simp [kvGet, List.find?]

theorem kvGet_kvDel (kv : KV) (k : String) : kvGet (kvDel kv k) k = none := by
  induction kv with
  | nil => rfl
  | cons p kv ih =>
    by_cases h : p.1 = k
    · simp only [kvDel] at ih ⊢
      simpa [List.filter, h, Ne, not_false_iff] using ih
    · simp only [kvDel] at ih ⊢
      simp [List.filter, kvGet, List.find?, h, ih]

/-! ### Lemmas for the blocking acquire loop -/

theorem acquireLoop_isSome (trySet : Nat → Bool) (elapsed : Nat → Nat) (d t : Nat)
    (hgap : ∀ n, elapsed n + d ≤ elapsed (n + 1)) :
    ∀ fuel n, t ≤ elapsed n + fuel * d →
      (acquireLoop trySet elapsed (some t) (fuel + 1) n).isSome = true := by
  intro fuel
  induction fuel with
  | zero =>
    intro n hn
    simp only [Nat.zero_mul, Nat.add_zero] at hn
    by_cases hset : trySet n = true <;> simp [acquireLoop, hset, hn]
  | succ fuel ih =>
    intro n hn
    by_cases hset : trySet n = true
    · simp [acquireLoop, hset]
    · by_cases htime : t ≤ elapsed n
      · simp [acquireLoop, hset, htime]
      · have step : t ≤ elapsed (n + 1) + fuel * d := by
          have h1 : elapsed n + (fuel + 1) * d = (elapsed n + d) + fuel * d := by ring
          have h2 : (elapsed n + d) + fuel * d ≤ elapsed (n + 1) + fuel * d :=
            Nat.add_le_add_right (hgap n) _
          omega
        have := ih (n + 1) step
        simpa [acquireLoop, hset, htime] using this

theorem acquireLoop_timeout_false (trySet : Nat → Bool) (elapsed : Nat → Nat) (d t : Nat)
    (hgap : ∀ n, elapsed n + d ≤ elapsed (n + 1))
    (htry : ∀ n, trySet n = false) :
    ∀ fuel n, t ≤ elapsed n + fuel * d →
      acquireLoop trySet elapsed (some t) (fuel + 1) n = some false := by
  intro fuel
  induction fuel with
  | zero =>
    intro n hn
    simp only [Nat.zero_mul, Nat.add_zero] at hn
    simp [acquireLoop, htry n, hn]
  | succ fuel ih =>
    intro n hn
    by_cases htime : t ≤ elapsed n
    · simp [acquireLoop, htry n, htime]
    · have step : t ≤ elapsed (n + 1) + fuel * d := by
        have h2 : (elapsed n + d) + fuel * d ≤ elapsed (n + 1) + fuel * d :=
          Nat.add_le_add_right (hgap n) _
        have h1 : elapsed n + (fuel + 1) * d = (elapsed n + d) + fuel * d := by ring
        omega
      have := ih (n + 1) step
      simpa [acquireLoop, htry n, htime] using this

theorem acquireLoop_none_of_never (trySet : Nat → Bool) (elapsed : Nat → Nat)
    (htry : ∀ n, trySet n = false) :
    ∀ fuel n, acquireLoop trySet elapsed none fuel n = none := by
  intro fuel
  induction fuel with
  | zero => intro n; rfl
  | succ fuel ih => intro n; simpa [acquireLoop, htry n] using ih (n + 1)

/-- C3.  Release is owner-checked: with a different token stored under the lock
key, release returns false and leaves the whole keyspace (in particular the
key and its value) unchanged; release returns true exactly when the stored
value is the caller's own token, and only then is the key deleted. -/
theorem redis_lock_release_owner_check (lock : RedisLock) (kv : KV) :
    (∀ other : String, other ≠ lock.owner_id → kvGet kv lock.key = some other →
        (lock.release kv).2 = false ∧ (lock.release kv).1 = kv)
    ∧ ((lock.release kv).2 = true ↔ kvGet kv lock.key = some lock.owner_id)
    ∧ (kvGet kv lock.key = some lock.owner_id →
        (lock.release kv).1 = kvDel kv lock.key
          ∧ kvGet (lock.release kv).1 lock.key = none) := by
  refine ⟨?_, ?_, ?_⟩
  · intro other hne hget
    have hnotown : ¬ kvGet kv lock.key = some lock.owner_id := by
      rw [hget]; simpa using fun h => hne h
    simp [RedisLock.release, hnotown]
  · by_cases h : kvGet kv lock.key = some lock.owner_id <;>
      simp [RedisLock.release, h]
  · intro h
    simp [RedisLock.release, h, kvGet_kvDel]

/-- Witness for C3 at a concrete keyspace holding a foreign token. -/
theorem redis_lock_release_owner_check_witness :
    (((mkRedisLock "uuid-a" "memos:lock" 60000).release [("memos:lock", "uuid-b")]).2 = false
        ∧ ((mkRedisLock "uuid-a" "memos:lock" 60000).release [("memos:lock", "uuid-b")]).1
            = [("memos:lock", "uuid-b")])
    ∧ kvGet (((mkRedisLock "uuid-a" "memos:lock" 60000).release
        [("memos:lock", "uuid-a")]).1) "memos:lock" = none := by
  refine ⟨?_, ?_⟩
  · exact (redis_lock_release_owner_check (mkRedisLock "uuid-a" "memos:lock" 60000)
      [("memos:lock", "uuid-b")]).1 "uuid-b" (by decide) (by decide)
  · exact ((redis_lock_release_owner_check (mkRedisLock "uuid-a" "memos:lock" 60000)
      [("memos:lock", "uuid-a")]).2.2 (by decide)).2

/-- C8.  A blocking acquire with a finite timeout terminates: with poll
interval d > 0 between timeout checks, fuel t + 2 always yields a result;
an iteration whose conditional set succeeds returns true at once (in
particular a successful fast path); when the lock is never free the call
returns false once elapsed time reaches the timeout; and only with timeout
None (and the lock never free) does the loop run without bound. -/
theorem redis_lock_acquire_blocking_terminates (trySet : Nat → Bool) (elapsed : Nat → Nat)
    (d t : Nat) (hd : 0 < d) (hgap : ∀ n, elapsed n + d ≤ elapsed (n + 1)) :
    (acquire trySet elapsed true (some t) (t + 2)).isSome = true
    ∧ (trySet 0 = true → ∀ fuel tmo, acquire trySet elapsed true tmo fuel = some true)
    ∧ (∀ fuel n tmo, trySet n = true →
        acquireLoop trySet elapsed tmo (fuel + 1) n = some true)
    ∧ ((∀ n, trySet n = false) →
        acquire trySet elapsed true (some t) (t + 2) = some false)
    ∧ ((∀ n, trySet n = false) → ∀ fuel, acquire trySet elapsed true none fuel = none) := by
  have hbound : t ≤ elapsed 1 + (t + 1) * d := by
    have : t + 1 ≤ (t + 1) * d := Nat.le_mul_of_pos_right _ hd
    omega
  refine ⟨?_, ?_, ?_, ?_, ?_⟩
  · by_cases h0 : trySet 0 = true
    · simp [acquire, h0]
    · have := acquireLoop_isSome trySet elapsed d t hgap (t + 1) 1 hbound
      simpa [acquire, h0] using this
  · intro h0 fuel tmo
    simp [acquire, h0]
  · intro fuel n tmo hset
    cases tmo <;> simp [acquireLoop, hset]
  · intro htry
    have := acquireLoop_timeout_false trySet elapsed d t hgap htry (t + 1) 1 hbound
    simpa [acquire, htry 0] using this
  · intro htry fuel
    simpa [acquire, htry 0] using acquireLoop_none_of_never trySet elapsed htry fuel 1

/-- Witness for C8 with the lock permanently held, a 1 ms poll interval and a
3 ms timeout: the blocking acquire returns false rather than hanging. -/
theorem redis_lock_acquire_blocking_terminates_witness :
    acquire (fun _ => false) (fun n => n) true (some 3) 5 = some false := by
  have h := redis_lock_acquire_blocking_terminates (fun _ => false) (fun n => n) 1 3
    (by decide) (fun n => Nat.le_refl (n + 1))
  exact h.2.2.2.1 (fun _ => rfl)

/-- Counterexample for C9: the owner token is minted once per RedisLock
instance (redis_lock.py line 21), so two successive acquire calls by the same
instance write the same token value, contrary to the claim that two distinct
acquisition attempts never write the same token. -/
theorem redis_lock_fresh_token_counterexample :
    (((mkRedisLock "3f2c-uuid" "memos:lock" 60000).tryAcquire []).2 = true)
    ∧ (((mkRedisLock "3f2c-uuid" "memos:lock" 60000).tryAcquire
          ((mkRedisLock "3f2c-uuid" "memos:lock" 60000).release
            (((mkRedisLock "3f2c-uuid" "memos:lock" 60000).tryAcquire []).1)).1).2 = true)
    ∧ kvGet (((mkRedisLock "3f2c-uuid" "memos:lock" 60000).tryAcquire []).1) "memos:lock"
        = kvGet (((mkRedisLock "3f2c-uuid" "memos:lock" 60000).tryAcquire
          ((mkRedisLock "3f2c-uuid" "memos:lock" 60000).release
            (((mkRedisLock "3f2c-uuid" "memos:lock" 60000).tryAcquire []).1)).1).1) "memos:lock"
    ∧ kvGet (((mkRedisLock "3f2c-uuid" "memos:lock" 60000).tryAcquire []).1) "memos:lock"
        = some "3f2c-uuid" := by
  decide

/-- C9 amended.  The owner token is random per RedisLock instance, not per
acquisition attempt: it is minted once at construction, every successful
conditional set by that instance stores exactly the instance's owner_id under
the lock key (so all acquisition attempts of one instance share one token),
and instances constructed from distinct uuid draws carry distinct tokens. -/
theorem redis_lock_token_per_instance (uuid key : String) (ttl : Nat) :
    ((mkRedisLock uuid key ttl).owner_id = uuid)
    ∧ (∀ kv : KV, ((mkRedisLock uuid key ttl).tryAcquire kv).2 = true →
        kvGet ((mkRedisLock uuid key ttl).tryAcquire kv).1 key = some uuid)
    ∧ (∀ uuid2 key2 ttl2, uuid2 ≠ uuid →
        (mkRedisLock uuid2 key2 ttl2).owner_id ≠ (mkRedisLock uuid key ttl).owner_id) := by
  refine ⟨rfl, ?_, ?_⟩
  · intro kv hset
    unfold RedisLock.tryAcquire kvSetNX at *
    cases hget : kvGet kv key with
    | some v => simp [mkRedisLock, hget] at hset
    | none =>
      simp only [mkRedisLock] at hget ⊢
      simp [hget, kvGet_cons_self]
  · intro uuid2 key2 ttl2 hne
    simpa [mkRedisLock] using hne

/-- Witness for the amended C9 at a concrete instance and keyspace. -/
theorem redis_lock_token_per_instance_witness :
    kvGet (((mkRedisLock "3f2c-uuid" "memos:lock" 60000).tryAcquire
        [("other", "v")]).1) "memos:lock" = some "3f2c-uuid" := by
  exact (redis_lock_token_per_instance "3f2c-uuid" "memos:lock" 60000).2.1
    [("other", "v")] (by decide)

/-! ### Expiration worker (app/background_worker.py)

The worker fetches all Memory rows with expires_at at most the current time
(lines 85-87) and, per row inside a try/except that logs and continues
(lines 91-103): when the row has an embedding_id, it first calls
delete_embedding_with_retry, then session.delete on the row.  The tenacity
decorator on delete_embedding_with_retry (line 51) stops after 3 attempts and
retries only when the wrapped call raises; after the third raise the
exception propagates, so the per-record except block skips the row's
session.delete.  qdrant_client.delete_embedding (qdrant_client.py lines
221-240) removes the point and returns true, or returns false when an
internal error prevented the deletion.
-/

/-- A row of the memories table, with the fields the worker reads
(postgres_client.py lines 23-40). -/
structure MemoryRow where
  id : Nat
  embedding_id : Option String
  expires_at : Option Nat
  deriving DecidableEq, Repr

/-- Outcome of one qdrant_client.delete_embedding call as observed by the
worker: the call raised, or it returned a boolean, having removed the vector
point exactly when it returned true. -/
inductive DeleteAttempt where
  | raised : DeleteAttempt
  | returned (removed : Bool) : DeleteAttempt
  deriving DecidableEq, Repr

/-- delete_embedding_with_retry (background_worker.py lines 51-53): tenacity
makes up to 3 attempts, retrying only on a raise; a raise on the third
attempt propagates (modelled as none), a return on any attempt stops the
retry and yields that boolean. -/
def deleteEmbeddingWithRetry (att : Nat → DeleteAttempt) : Option Bool :=
  match att 0 with
  | .returned b => some b
  | .raised =>
    match att 1 with
    | .returned b => some b
    | .raised =>
      match att 2 with
      | .returned b => some b
      | .raised => none

/-- An observable side effect of one worker pass, in program order. -/
inductive WorkerEvent where
  | vecDeleteAttempt (eid : String) (attempt : Nat) : WorkerEvent
  | pgDelete (id : Nat) : WorkerEvent
  deriving DecidableEq, Repr

/-- The delete_embedding attempts actually performed by the retry wrapper for
one embedding id (1, 2 or 3 of them, stopping at the first non-raising
attempt). -/
def attemptEvents (att : Nat → DeleteAttempt) (eid : String) : List WorkerEvent :=
  match att 0 with
  | .returned _ => [.vecDeleteAttempt eid 0]
  | .raised =>
    match att 1 with
    | .returned _ => [.vecDeleteAttempt eid 0, .vecDeleteAttempt eid 1]
    | .raised => [.vecDeleteAttempt eid 0, .vecDeleteAttempt eid 1, .vecDeleteAttempt eid 2]

/-- The durable state the worker acts on: the memories table (PrimaryStore)
and the set of vector point ids (VectorIndex). -/
structure StorageState where
  pg : List MemoryRow
  vec : List String
  deriving DecidableEq, Repr

/-- The body of the per-record try block (background_worker.py lines 92-103):
with an embedding_id, run the retried embedding deletion first; when it
ultimately raises, the except block logs and moves on, leaving the row in
place; otherwise (and for rows with no embedding) session.delete removes the
row by primary key. -/
def processRecord (att : String → Nat → DeleteAttempt)
    (acc : StorageState × List WorkerEvent) (r : MemoryRow) :
    StorageState × List WorkerEvent :=
  match r.embedding_id with
  | none =>
    ({ acc.1 with pg := acc.1.pg.filter (fun x => x.id ≠ r.id) },
      acc.2 ++ [.pgDelete r.id])
  | some eid =>
    match deleteEmbeddingWithRetry (att eid) with
    | none => (acc.1, acc.2 ++ attemptEvents (att eid) eid)
    | some removed =>
      ({ pg := acc.1.pg.filter (fun x => x.id ≠ r.id),
         vec := if removed then acc.1.vec.filter (fun p => p ≠ eid) else acc.1.vec },
        acc.2 ++ attemptEvents (att eid) eid ++ [.pgDelete r.id])

/-- The expiry predicate of the scan query (background_worker.py lines 85-87):
Memory.expires_at <= now; rows with NULL expires_at are not selected. -/
def isExpired (now : Nat) (r : MemoryRow) : Bool :=
  match r.expires_at with
  | some e => e ≤ now
  | none => false

/-- One full pass of process_expired_memories_once after the metrics prologue
(background_worker.py lines 66-103): when the lock was not acquired the pass
is skipped (lines 74-77); otherwise the expired rows are snapshotted at scan
start and each is processed in order.  Returns the resulting storage state
and the pass's event trace. -/
def processExpiredOnce (lockAcquired : Bool) (now : Nat)
    (att : String → Nat → DeleteAttempt) (st : StorageState) :
    StorageState × List WorkerEvent :=
  if lockAcquired = false then (st, [])
  else (st.pg.filter (isExpired now)).foldl (processRecord att) (st, [])

/-! ### Worker lemmas -/

theorem processRecord_pg_subset (att : String → Nat → DeleteAttempt)
    (acc : StorageState × List WorkerEvent) (r : MemoryRow) :
    ∀ x ∈ (processRecord att acc r).1.pg, x ∈ acc.1.pg := by
  intro x hx
  unfold processRecord at hx
  cases hemb : r.embedding_id with
  | none =>
    simp only [hemb] at hx
    exact (List.mem_filter.1 hx).1
  | some eid =>
    simp only [hemb] at hx
    cases hdel : deleteEmbeddingWithRetry (att eid) with
    | none => simpa [hdel] using hx
    | some removed =>
      simp only [hdel] at hx
      exact (List.mem_filter.1 hx).1

theorem processRecord_vec_subset (att : String → Nat → DeleteAttempt)
    (acc : StorageState × List WorkerEvent) (r : MemoryRow) :
    ∀ p ∈ (processRecord att acc r).1.vec, p ∈ acc.1.vec := by
  intro p hp
  unfold processRecord at hp
  cases hemb : r.embedding_id with
  | none => simpa [hemb] using hp
  | some eid =>
    simp only [hemb] at hp
    cases hdel : deleteEmbeddingWithRetry (att eid) with
    | none => simpa [hdel] using hp
    | some removed =>
      simp only [hdel] at hp
      by_cases hrm : removed = true
      · rw [hrm] at hp
        simp only [if_true] at hp
        exact (List.mem_filter.1 hp).1
      · simp only [Bool.not_eq_true] at hrm
        rw [hrm] at hp
        simpa using hp

theorem foldl_pg_subset (att : String → Nat → DeleteAttempt) (recs : List MemoryRow) :
    ∀ acc, ∀ x ∈ (recs.foldl (processRecord att) acc).1.pg, x ∈ acc.1.pg := by
  induction recs with
  | nil => intro acc x hx; simpa using hx
  | cons r recs ih =>
    intro acc x hx
    exact processRecord_pg_subset att acc r x (ih (processRecord att acc r) x hx)

theorem foldl_vec_subset (att : String → Nat → DeleteAttempt) (recs : List MemoryRow) :
    ∀ acc, ∀ p ∈ (recs.foldl (processRecord att) acc).1.vec, p ∈ acc.1.vec := by
  induction recs with
  | nil => intro acc p hp; simpa using hp
  | cons r recs ih =>
    intro acc p hp
    exact processRecord_vec_subset att acc r p (ih (processRecord att acc r) p hp)

theorem processRecord_removes_own_id (att : String → Nat → DeleteAttempt)
    (acc : StorageState × List WorkerEvent) (r : MemoryRow)
    (hok : ∀ eid, r.embedding_id = some eid →
      deleteEmbeddingWithRetry (att eid) = some true) :
    ∀ x ∈ (processRecord att acc r).1.pg, x.id ≠ r.id := by
  intro x hx
  unfold processRecord at hx
  cases hemb : r.embedding_id with
  | none =>
    simp only [hemb] at hx
    simpa using (List.mem_filter.1 hx).2
  | some eid =>
    have hdel := hok eid hemb
    simp only [hemb, hdel] at hx
    simpa using (List.mem_filter.1 hx).2

theorem processRecord_removes_own_vec (att : String → Nat → DeleteAttempt)
    (acc : StorageState × List WorkerEvent) (r : MemoryRow) (eid : String)
    (hemb : r.embedding_id = some eid)
    (hdel : deleteEmbeddingWithRetry (att eid) = some true) :
    eid ∉ (processRecord att acc r).1.vec := by
  intro hmem
  unfold processRecord at hmem
  simp only [hemb, hdel, if_true] at hmem
  simpa using (List.mem_filter.1 hmem).2

/-- C2.  After a worker pass that acquires the lock, any row that was expired
at scan start and whose own deletions succeed (its retried embedding deletion,
when it has one, completes successfully) is absent from PrimaryStore, and its
vector point is absent from the VectorIndex.  No hypothesis constrains the
other expired rows, so a failure while deleting one record never blocks the
deletion of the others. -/
theorem worker_pass_deletes_expired (now : Nat) (att : String → Nat → DeleteAttempt)
    (st : StorageState) (r : MemoryRow)
    (hr : r ∈ st.pg) (hexp : isExpired now r = true)
    (hok : ∀ eid, r.embedding_id = some eid →
      deleteEmbeddingWithRetry (att eid) = some true) :
    (∀ x ∈ (processExpiredOnce true now att st).1.pg, x.id ≠ r.id)
    ∧ (∀ eid, r.embedding_id = some eid →
        eid ∉ (processExpiredOnce true now att st).1.vec) := by
  have hrexp : r ∈ st.pg.filter (isExpired now) := List.mem_filter.2 ⟨hr, hexp⟩
  obtain ⟨l1, l2, hsplit⟩ := List.append_of_mem hrexp
  have hfold : processExpiredOnce true now att st
      = l2.foldl (processRecord att) (processRecord att (l1.foldl (processRecord att) (st, [])) r) := by
    simp only [processExpiredOnce, hsplit]
    rw [List.foldl_append, List.foldl_cons]
    simp
  constructor
  · intro x hx
    rw [hfold] at hx
    have hx2 := foldl_pg_subset att l2 _ x hx
    exact processRecord_removes_own_id att _ r hok x hx2
  · intro eid hemb
    intro hmem
    rw [hfold] at hmem
    have hmem2 := foldl_vec_subset att l2 _ eid hmem
    exact processRecord_removes_own_vec att _ r eid hemb (hok eid hemb) hmem2

/-- Witness for C2: a pass over three rows (one expired with an embedding,
one expired without, one not expired) with all deletions succeeding. -/
theorem worker_pass_deletes_expired_witness :
    (∀ x ∈ (processExpiredOnce true 10 (fun _ _ => .returned true)
        { pg := [⟨1, some "e1", some 10⟩, ⟨2, none, some 5⟩, ⟨3, none, none⟩],
          vec := ["e1", "e9"] }).1.pg, x.id ≠ 1)
    ∧ (∀ eid, (some "e1" : Option String) = some eid →
        eid ∉ (processExpiredOnce true 10 (fun _ _ => .returned true)
          { pg := [⟨1, some "e1", some 10⟩, ⟨2, none, some 5⟩, ⟨3, none, none⟩],
            vec := ["e1", "e9"] }).1.vec) := by
  exact worker_pass_deletes_expired 10 (fun _ _ => .returned true)
    { pg := [⟨1, some "e1", some 10⟩, ⟨2, none, some 5⟩, ⟨3, none, none⟩],
      vec := ["e1", "e9"] }
    ⟨1, some "e1", some 10⟩ (by decide) (by decide)
    (fun eid h => by cases h; rfl)

/-! ### The event trace of one worker pass -/

/-- The events contributed by processing a single expired row: with no
embedding, just the row deletion; with an embedding, the delete attempts,
followed by the row deletion only when the retried deletion did not
ultimately raise. -/
def recordTrace (att : String → Nat → DeleteAttempt) (r : MemoryRow) : List WorkerEvent :=
  match r.embedding_id with
  | none => [.pgDelete r.id]
  | some eid =>
    match deleteEmbeddingWithRetry (att eid) with
    | none => attemptEvents (att eid) eid
    | some _ => attemptEvents (att eid) eid ++ [.pgDelete r.id]

theorem processRecord_trace (att : String → Nat → DeleteAttempt)
    (acc : StorageState × List WorkerEvent) (r : MemoryRow) :
    (processRecord att acc r).2 = acc.2 ++ recordTrace att r := by
  unfold processRecord recordTrace
  cases hemb : r.embedding_id with
  | none => simp
  | some eid =>
    cases hdel : deleteEmbeddingWithRetry (att eid) with
    | none => simp [hdel]
    | some removed => simp [hdel]

theorem foldl_trace (att : String → Nat → DeleteAttempt) (recs : List MemoryRow) :
    ∀ acc : StorageState × List WorkerEvent,
      (recs.foldl (processRecord att) acc).2 = acc.2 ++ recs.flatMap (recordTrace att) := by
  induction recs with
  | nil => intro acc; simp
  | cons r recs ih =>
    intro acc
    rw [List.foldl_cons, ih, processRecord_trace]
    simp

theorem attemptEvents_shape (a : Nat → DeleteAttempt) (e : String) :
    ∀ ev ∈ attemptEvents a e, ∃ k, ev = .vecDeleteAttempt e k := by
  intro ev hev
  unfold attemptEvents at hev
  cases h0 : a 0 with
  | returned b =>
    rw [h0] at hev
    simp at hev
    exact ⟨0, hev⟩
  | raised =>
    rw [h0] at hev
    cases h1 : a 1 with
    | returned b =>
      rw [h1] at hev
      simp at hev
      rcases hev with h | h
      · exact ⟨0, h⟩
      · exact ⟨1, h⟩
    | raised =>
      rw [h1] at hev
      simp at hev
      rcases hev with h | h | h
      · exact ⟨0, h⟩
      · exact ⟨1, h⟩
      · exact ⟨2, h⟩

theorem recordTrace_events (att : String → Nat → DeleteAttempt) (x : MemoryRow) :
    ∀ ev ∈ recordTrace att x,
      ev = .pgDelete x.id
        ∨ ∃ eid2 k, x.embedding_id = some eid2 ∧ ev = .vecDeleteAttempt eid2 k := by
  intro ev hev
  unfold recordTrace at hev
  cases hemb : x.embedding_id with
  | none =>
    simp only [hemb] at hev
    left; simpa using hev
  | some eid2 =>
    simp only [hemb] at hev
    cases hdel : deleteEmbeddingWithRetry (att eid2) with
    | none =>
      simp only [hdel] at hev
      obtain ⟨k, hk⟩ := attemptEvents_shape (att eid2) eid2 ev hev
      exact Or.inr ⟨eid2, k, rfl, hk⟩
    | some removed =>
      simp only [hdel] at hev
      rcases List.mem_append.1 hev with h | h
      · obtain ⟨k, hk⟩ := attemptEvents_shape (att eid2) eid2 ev h
        exact Or.inr ⟨eid2, k, rfl, hk⟩
      · left; simpa using h

theorem vec_event_not_in_recordTrace (att : String → Nat → DeleteAttempt)
    (x : MemoryRow) (eid : String) (hne : x.embedding_id ≠ some eid) (k : Nat) :
    WorkerEvent.vecDeleteAttempt eid k ∉ recordTrace att x := by
  intro hmem
  rcases recordTrace_events att x _ hmem with h | ⟨eid2, k2, hx, hev⟩
  · exact WorkerEvent.noConfusion h
  · cases hev
    exact hne (by simpa using hx)

theorem pg_event_not_in_recordTrace (att : String → Nat → DeleteAttempt)
    (x : MemoryRow) (i : Nat) (hne : x.id ≠ i) :
    WorkerEvent.pgDelete i ∉ recordTrace att x := by
  intro hmem
  rcases recordTrace_events att x _ hmem with h | ⟨eid2, k2, hx, hev⟩
  · cases h; exact hne rfl
  · exact WorkerEvent.noConfusion hev

theorem processRecord_keeps_other (att : String → Nat → DeleteAttempt)
    (acc : StorageState × List WorkerEvent) (x r2 : MemoryRow)
    (hne : x.id ≠ r2.id) (hx : x ∈ acc.1.pg) :
    x ∈ (processRecord att acc r2).1.pg := by
  unfold processRecord
  cases hemb : r2.embedding_id with
  | none =>
    simp only
    exact List.mem_filter.2 ⟨hx, by simpa using hne⟩
  | some eid =>
    cases hdel : deleteEmbeddingWithRetry (att eid) with
    | none => simpa [hdel] using hx
    | some removed =>
      simp only [hdel]
      exact List.mem_filter.2 ⟨hx, by simpa using hne⟩

theorem foldl_keeps_other (att : String → Nat → DeleteAttempt) (recs : List MemoryRow)
    (x : MemoryRow) (h : ∀ r2 ∈ recs, x.id ≠ r2.id) :
    ∀ acc : StorageState × List WorkerEvent,
      x ∈ acc.1.pg → x ∈ (recs.foldl (processRecord att) acc).1.pg := by
  induction recs with
  | nil => intro acc hx; simpa using hx
  | cons r2 recs ih =>
    intro acc hx
    rw [List.foldl_cons]
    exact ih (fun q hq => h q (List.mem_cons_of_mem _ hq)) _
      (processRecord_keeps_other att acc x r2 (h r2 (List.mem_cons_self _ _)) hx)

/-- C10.  For an expired row with an embedding id (rows unique by primary key,
its embedding id carried by no other row): the pass trace decomposes so that
all delete-attempt events for that embedding, and its row-delete event, lie
in the row's own contiguous segment, whose shape is the attempt events
followed by the row delete exactly when the retried deletion did not raise;
when all three attempts raise, the row stays in PrimaryStore (still expired,
so eligible on the next pass) and no row-delete event for it is emitted. -/
theorem worker_vec_delete_precedes_pg_delete (now : Nat)
    (att : String → Nat → DeleteAttempt) (st : StorageState) (r : MemoryRow) (eid : String)
    (hr : r ∈ st.pg) (hexp : isExpired now r = true)
    (hemb : r.embedding_id = some eid)
    (hnodup : (st.pg.map MemoryRow.id).Nodup)
    (huniq : ∀ x ∈ st.pg, x.id ≠ r.id → x.embedding_id ≠ some eid) :
    (deleteEmbeddingWithRetry (att eid) = none →
        r ∈ (processExpiredOnce true now att st).1.pg
          ∧ WorkerEvent.pgDelete r.id ∉ (processExpiredOnce true now att st).2)
    ∧ (∃ pre post,
        (processExpiredOnce true now att st).2 = pre ++ recordTrace att r ++ post
        ∧ (∀ k, WorkerEvent.vecDeleteAttempt eid k ∉ pre
            ∧ WorkerEvent.vecDeleteAttempt eid k ∉ post)
        ∧ WorkerEvent.pgDelete r.id ∉ pre ∧ WorkerEvent.pgDelete r.id ∉ post)
    ∧ recordTrace att r = attemptEvents (att eid) eid
        ++ (if (deleteEmbeddingWithRetry (att eid)).isSome
            then [WorkerEvent.pgDelete r.id] else []) := by
  have hrexp : r ∈ st.pg.filter (isExpired now) := List.mem_filter.2 ⟨hr, hexp⟩
  obtain ⟨l1, l2, hsplit⟩ := List.append_of_mem hrexp
  have hsubl : List.Sublist (st.pg.filter (isExpired now)) st.pg := List.filter_sublist _
  have hnodup2 : ((st.pg.filter (isExpired now)).map MemoryRow.id).Nodup :=
    hnodup.sublist (hsubl.map MemoryRow.id)
  have hids : (l1.map MemoryRow.id ++ r.id :: l2.map MemoryRow.id).Nodup := by
    have := hnodup2
    rw [hsplit] at this
    simpa using this
  have hl1_ne : ∀ x ∈ l1, x.id ≠ r.id := by
    intro x hx heq
    have hmem : r.id ∈ l1.map MemoryRow.id := heq ▸ List.mem_map_of_mem _ hx
    have := (List.nodup_append.1 hids).2.2
    exact this hmem (List.mem_cons_self _ _)
  have hl2_ne : ∀ x ∈ l2, x.id ≠ r.id := by
    intro x hx heq
    have hmem : r.id ∈ l2.map MemoryRow.id := heq ▸ List.mem_map_of_mem _ hx
    have hnods := (List.nodup_append.1 hids).2.1
    have := (List.nodup_cons.1 hnods).1
    exact this hmem
  have hsub1 : ∀ x ∈ l1, x ∈ st.pg := by
    intro x hx
    refine hsubl.subset ?_
    rw [hsplit]
    exact List.mem_append_left _ hx
  have hsub2 : ∀ x ∈ l2, x ∈ st.pg := by
    intro x hx
    refine hsubl.subset ?_
    rw [hsplit]
    exact List.mem_append_right _ (List.mem_cons_of_mem _ hx)
  have hl1_emb : ∀ x ∈ l1, x.embedding_id ≠ some eid := fun x hx =>
    huniq x (hsub1 x hx) (hl1_ne x hx)
  have hl2_emb : ∀ x ∈ l2, x.embedding_id ≠ some eid := fun x hx =>
    huniq x (hsub2 x hx) (hl2_ne x hx)
  have hfold : processExpiredOnce true now att st
      = l2.foldl (processRecord att)
          (processRecord att (l1.foldl (processRecord att) (st, [])) r) := by
    simp only [processExpiredOnce, hsplit]
    rw [List.foldl_append, List.foldl_cons]
    simp
  have htrace : (processExpiredOnce true now att st).2
      = l1.flatMap (recordTrace att) ++ recordTrace att r ++ l2.flatMap (recordTrace att) := by
    rw [hfold, foldl_trace, processRecord_trace, foldl_trace]
    simp
  refine ⟨?_, ?_, ?_⟩
  · intro hraise
    constructor
    · rw [hfold]
      refine foldl_keeps_other att l2 r (fun q hq => Ne.symm (hl2_ne q hq)) _ ?_
      have hkeep1 : r ∈ (l1.foldl (processRecord att) (st, [])).1.pg :=
        foldl_keeps_other att l1 r (fun q hq => Ne.symm (hl1_ne q hq)) _ hr
      unfold processRecord
      simp only [hemb, hraise]
      exact hkeep1
    · rw [htrace]
      intro hmem
      rcases List.mem_append.1 hmem with hmem | hmem
      · rcases List.mem_append.1 hmem with hmem | hmem
        · obtain ⟨x, hx, hev⟩ := List.mem_flatMap.1 hmem
          exact pg_event_not_in_recordTrace att x r.id
            (fun heq => hl1_ne x hx heq) hev
        · unfold recordTrace at hmem
          simp only [hemb, hraise] at hmem
          obtain ⟨k, hk⟩ := attemptEvents_shape (att eid) eid _ hmem
          exact WorkerEvent.noConfusion hk
      · obtain ⟨x, hx, hev⟩ := List.mem_flatMap.1 hmem
        exact pg_event_not_in_recordTrace att x r.id
          (fun heq => hl2_ne x hx heq) hev
  · refine ⟨l1.flatMap (recordTrace att), l2.flatMap (recordTrace att), htrace, ?_, ?_, ?_⟩
    · intro k
      constructor
      · intro hmem
        obtain ⟨x, hx, hev⟩ := List.mem_flatMap.1 hmem
        exact vec_event_not_in_recordTrace att x eid (hl1_emb x hx) k hev
      · intro hmem
        obtain ⟨x, hx, hev⟩ := List.mem_flatMap.1 hmem
        exact vec_event_not_in_recordTrace att x eid (hl2_emb x hx) k hev
    · intro hmem
      obtain ⟨x, hx, hev⟩ := List.mem_flatMap.1 hmem
      exact pg_event_not_in_recordTrace att x r.id (fun heq => hl1_ne x hx heq) hev
    · intro hmem
      obtain ⟨x, hx, hev⟩ := List.mem_flatMap.1 hmem
      exact pg_event_not_in_recordTrace att x r.id (fun heq => hl2_ne x hx heq) hev
  · unfold recordTrace
    simp only [hemb]
    cases hdel : deleteEmbeddingWithRetry (att eid) with
    | none => simp [hdel]
    | some removed => simp [hdel]

/-- Witness for C10: one expired row whose embedding deletion raises on all
three attempts; the row survives the pass and only the three attempt events
are emitted. -/
theorem worker_vec_delete_precedes_pg_delete_witness :
    ((⟨1, some "e1", some 4⟩ : MemoryRow) ∈ (processExpiredOnce true 10 (fun _ _ => .raised)
        { pg := [⟨1, some "e1", some 4⟩], vec := ["e1"] }).1.pg
      ∧ WorkerEvent.pgDelete 1 ∉ (processExpiredOnce true 10 (fun _ _ => .raised)
        { pg := [⟨1, some "e1", some 4⟩], vec := ["e1"] }).2)
    ∧ recordTrace (fun _ _ => .raised) ⟨1, some "e1", some 4⟩
        = attemptEvents ((fun _ _ => .raised) "e1") "e1"
          ++ (if (deleteEmbeddingWithRetry ((fun _ _ => .raised) "e1")).isSome
              then [WorkerEvent.pgDelete 1] else []) := by
  have h := worker_vec_delete_precedes_pg_delete 10 (fun _ _ => .raised)
    { pg := [⟨1, some "e1", some 4⟩], vec := ["e1"] } ⟨1, some "e1", some 4⟩ "e1"
    (by decide) (by decide) (by decide) (by decide)
    (fun x hx hne => by
      have : x = ⟨1, some "e1", some 4⟩ := by simpa using hx
      exact absurd (by rw [this]) hne)
  exact ⟨h.1 rfl, h.2.2⟩

/-! ### Tier-2 store (app/main.py store_memory, lines 341-561)

The request flow, after the embedding step (lines 386-398, which touches only
the redis cache, modelled in the cache section): store in PostgreSQL to mint
an id (lines 400-419, fatal 500 when None); store the vector in Qdrant inside
a broad try (lines 421-459) and, when a point id came back, link it into the
postgres row (line 440) - the boolean returned by update_memory_embedding_id
is ignored, and per postgres_client.py lines 237-249 that call catches its
own errors and returns a bool, so a swallowed update failure still yields
qdrant_success = True; update the Neo4j graph inside a broad try (lines
461-522, skipped when the driver is absent); invalidate redis caches inside a
try (lines 524-537, modelled in the cache section, cannot raise here); build
storage_status and operational_mode (lines 539-556).  Observability calls are
outside the specified core and modelled as non-failing.
-/

/-- A row of the memories table as written by the tier-2 store. -/
structure PgRecord where
  id : Nat
  content : String
  agent_id : String
  embedding_id : Option String
  deriving DecidableEq, Repr

/-- The durable state the tier-2 store writes: postgres rows and qdrant
points, a point being a pair of point id and the memory id in its payload. -/
structure SysState where
  pg : List PgRecord
  qdrant : List (String × Nat)
  deriving DecidableEq, Repr

/-- Outcome of qdrant_client.store_embedding as observed in main.py: the call
raised, or returned an optional point id. -/
inductive VectorWrite where
  | raised : VectorWrite
  | returned (point_id : Option String) : VectorWrite
  deriving DecidableEq, Repr

/-- Outcome of the Neo4j block (concept extraction plus create_memory_node)
as observed in main.py: raised, or completed with the extracted concepts. -/
inductive GraphWrite where
  | raised : GraphWrite
  | created (concepts : List String) : GraphWrite
  deriving DecidableEq, Repr

/-- The environment of one tier-2 store request: outcomes of each backend
call.  updateOk models whether update_memory_embedding_id completed its row
update (false = an internal error was swallowed and it returned False without
updating). -/
structure StoreEnv where
  pgStoreId : Option Nat
  vectorWrite : VectorWrite
  updateOk : Bool
  neo4jDriver : Bool
  graphWrite : GraphWrite
  deriving DecidableEq, Repr

/-- The fields of the store_memory response relevant to the claims
(main.py lines 539-556). -/
structure StoreResponse where
  success : Bool
  memory_id : Nat
  point_id : Option String
  storage_postgres : Bool
  storage_qdrant : Bool
  storage_neo4j : Bool
  operational_mode : String
  deriving DecidableEq, Repr

/-- store_memory (main.py lines 341-561) as a function from the request
environment and durable state to an HTTP-level result (error = status code)
and the resulting durable state. -/
def storeMemory (env : StoreEnv) (content agent : String) (st : SysState) :
    Except Nat StoreResponse × SysState :=
  match env.pgStoreId with
  | none => (.error 500, st)
  | some mid =>
    let st1 : SysState := { st with pg := st.pg ++ [⟨mid, content, agent, none⟩] }
    let step3 : Option String × Bool × SysState :=
      match env.vectorWrite with
      | .raised => (none, false, st1)
      | .returned none => (none, false, st1)
      | .returned (some pid) =>
        let stq : SysState := { st1 with qdrant := st1.qdrant ++ [(pid, mid)] }
        if env.updateOk then
          (some pid, true,
            { stq with pg := stq.pg.map (fun rec =>
                if rec.id = mid then { rec with embedding_id := some pid } else rec) })
        else (some pid, true, stq)
    let point_id := step3.1
    let qdrant_success := step3.2.1
    let st2 := step3.2.2
    let neo4j_created : Bool :=
      if env.neo4jDriver then
        match env.graphWrite with
        | .created _ => true
        | .raised => false
      else false
    (.ok { success := true
           memory_id := mid
           point_id := point_id
           storage_postgres := true
           storage_qdrant := qdrant_success
           storage_neo4j := neo4j_created
           operational_mode :=
             if qdrant_success && neo4j_created then "full" else "degraded" },
      st2)

theorem map_link_fresh (l : List PgRecord) (mid : Nat) (pid : String)
    (hfresh : ∀ rec ∈ l, rec.id ≠ mid) :
    l.map (fun rec => if rec.id = mid then { rec with embedding_id := some pid }
      else rec) = l := by
  induction l with
  | nil => rfl
  | cons r l ih =>
    have hr : r.id ≠ mid := hfresh r (List.mem_cons_self _ _)
    simp only [List.map_cons, if_neg hr]
    rw [ih (fun q hq => hfresh q (List.mem_cons_of_mem _ hq))]

/-- The qdrant entry of storage_status computed by the store (true exactly
when store_embedding returned a point id, main.py lines 435-445). -/
def qdrantEntry (env : StoreEnv) : Bool :=
  match env.vectorWrite with
  | .returned (some _) => true
  | _ => false

/-- The point id carried by the response (main.py line 551). -/
def pointIdOf (env : StoreEnv) : Option String :=
  match env.vectorWrite with
  | .returned (some pid) => some pid
  | _ => none

/-- The neo4j entry of storage_status (memory_node_created, main.py lines
461-522 and 543). -/
def neo4jEntry (env : StoreEnv) : Bool :=
  if env.neo4jDriver then
    match env.graphWrite with
    | .created _ => true
    | .raised => false
  else false

/-- The embedding id linked into the new row: set only when the vector write
returned a point id and the linking update completed. -/
def linkedEmbedding (env : StoreEnv) : Option String :=
  match env.vectorWrite, env.updateOk with
  | .returned (some pid), true => some pid
  | _, _ => none

theorem storeMemory_run (env : StoreEnv) (content agent : String) (st : SysState)
    (mid : Nat) (hmid : env.pgStoreId = some mid) :
    (storeMemory env content agent st).1 = .ok
      { success := true
        memory_id := mid
        point_id := pointIdOf env
        storage_postgres := true
        storage_qdrant := qdrantEntry env
        storage_neo4j := neo4jEntry env
        operational_mode :=
          if qdrantEntry env && neo4jEntry env then "full" else "degraded" } := by
  cases henv : env.vectorWrite with
  | raised =>
    cases hdrv : env.neo4jDriver <;> cases hg : env.graphWrite <;>
      simp [storeMemory, hmid, henv, hdrv, hg, pointIdOf, qdrantEntry, neo4jEntry]
  | returned popt =>
    cases popt with
    | none =>
      cases hdrv : env.neo4jDriver <;> cases hg : env.graphWrite <;>
        simp [storeMemory, hmid, henv, hdrv, hg, pointIdOf, qdrantEntry, neo4jEntry]
    | some pid =>
      cases hupd : env.updateOk <;> cases hdrv : env.neo4jDriver <;>
        cases hg : env.graphWrite <;>
          simp [storeMemory, hmid, henv, hupd, hdrv, hg, pointIdOf, qdrantEntry,
            neo4jEntry]

theorem storeMemory_state_fresh (env : StoreEnv) (content agent : String) (st : SysState)
    (mid : Nat) (hmid : env.pgStoreId = some mid)
    (hfresh : ∀ rec ∈ st.pg, rec.id ≠ mid) :
    (storeMemory env content agent st).2
      = { pg := st.pg ++ [⟨mid, content, agent, linkedEmbedding env⟩]
          qdrant := st.qdrant ++ (match env.vectorWrite with
            | .returned (some pid) => [(pid, mid)]
            | _ => []) } := by
  cases henv : env.vectorWrite with
  | raised => simp [storeMemory, hmid, henv, linkedEmbedding]
  | returned popt =>
    cases popt with
    | none => simp [storeMemory, hmid, henv, linkedEmbedding]
    | some pid =>
      cases hupd : env.updateOk with
      | false => simp [storeMemory, hmid, henv, hupd, linkedEmbedding]
      | true =>
        simp only [storeMemory, hmid, henv, hupd, linkedEmbedding, if_true,
          List.map_append]
        rw [map_link_fresh st.pg mid pid hfresh]
        simp

/-- C1.  When the PostgreSQL write mints an id, the request always returns a
success response carrying that id, no matter how the Qdrant and Neo4j writes
fare; the postgres entry of storage_status is true, the qdrant entry is true
exactly when the vector write returned a point id, the neo4j entry is true
exactly when the driver was present and the graph write completed,
operational_mode is full exactly when all three entries are true and degraded
otherwise, and the minted row is still present in PrimaryStore afterwards
(never rolled back).  Only a PostgreSQL failure (no id) terminates the
request with an error, leaving the state untouched. -/
theorem tier2_store_partial_failure_policy (env : StoreEnv) (content agent : String)
    (st : SysState) :
    (∀ mid, env.pgStoreId = some mid →
      ∃ resp, (storeMemory env content agent st).1 = .ok resp
        ∧ resp.success = true
        ∧ resp.memory_id = mid
        ∧ resp.storage_postgres = true
        ∧ (resp.storage_qdrant = true ↔ ∃ pid, env.vectorWrite = .returned (some pid))
        ∧ (resp.storage_neo4j = true ↔
            env.neo4jDriver = true ∧ ∃ cs, env.graphWrite = .created cs)
        ∧ (resp.operational_mode = "full" ↔
            resp.storage_qdrant = true ∧ resp.storage_neo4j = true)
        ∧ (resp.operational_mode = "degraded" ↔
            ¬(resp.storage_qdrant = true ∧ resp.storage_neo4j = true))
        ∧ (∃ rec ∈ (storeMemory env content agent st).2.pg,
            rec.id = mid ∧ rec.content = content))
    ∧ (env.pgStoreId = none →
        (storeMemory env content agent st).1 = .error 500
          ∧ (storeMemory env content agent st).2 = st) := by
  constructor
  · intro mid hmid
    refine ⟨_, storeMemory_run env content agent st mid hmid, rfl, rfl, rfl, ?_, ?_, ?_, ?_, ?_⟩
    · cases henv : env.vectorWrite with
      | raised => simp [qdrantEntry, henv]
      | returned popt => cases popt <;> simp [qdrantEntry, henv]
    · cases hdrv : env.neo4jDriver <;> cases hg : env.graphWrite <;>
        simp [neo4jEntry, hdrv, hg]
    · cases hq : qdrantEntry env <;> cases hn : neo4jEntry env <;> simp [hq, hn]
    · cases hq : qdrantEntry env <;> cases hn : neo4jEntry env <;> simp [hq, hn]
    · cases henv : env.vectorWrite with
      | raised =>
        exact ⟨⟨mid, content, agent, none⟩,
          by simp [storeMemory, hmid, henv], rfl, rfl⟩
      | returned popt =>
        cases popt with
        | none =>
          exact ⟨⟨mid, content, agent, none⟩,
            by simp [storeMemory, hmid, henv], rfl, rfl⟩
        | some pid =>
          cases hupd : env.updateOk with
          | false =>
            exact ⟨⟨mid, content, agent, none⟩,
              by simp [storeMemory, hmid, henv, hupd], rfl, rfl⟩
          | true =>
            refine ⟨⟨mid, content, agent, some pid⟩, ?_, rfl, rfl⟩
            simp only [storeMemory, hmid, henv, hupd, if_true]
            refine List.mem_map.2 ⟨⟨mid, content, agent, none⟩, ?_, by simp⟩
            simp
  · intro hnone
    constructor <;> simp [storeMemory, hnone]

/-- Witness for C1: a store whose vector write raises and whose graph write
completes still succeeds in degraded mode with the minted id 7. -/
theorem tier2_store_partial_failure_policy_witness :
    ∃ resp, (storeMemory ⟨some 7, .raised, true, true, .created ["fox"]⟩
        "red fox" "agentA" ⟨[], []⟩).1 = .ok resp
      ∧ resp.success = true
      ∧ resp.memory_id = 7
      ∧ resp.storage_postgres = true
      ∧ (resp.storage_qdrant = true ↔
          ∃ pid, (VectorWrite.raised : VectorWrite) = .returned (some pid))
      ∧ (resp.storage_neo4j = true ↔
          true = true ∧ ∃ cs, (GraphWrite.created ["fox"] : GraphWrite) = .created cs)
      ∧ (resp.operational_mode = "full" ↔
          resp.storage_qdrant = true ∧ resp.storage_neo4j = true)
      ∧ (resp.operational_mode = "degraded" ↔
          ¬(resp.storage_qdrant = true ∧ resp.storage_neo4j = true))
      ∧ (∃ rec ∈ (storeMemory ⟨some 7, .raised, true, true, .created ["fox"]⟩
          "red fox" "agentA" ⟨[], []⟩).2.pg, rec.id = 7 ∧ rec.content = "red fox") :=
  (tier2_store_partial_failure_policy ⟨some 7, .raised, true, true, .created ["fox"]⟩
    "red fox" "agentA" ⟨[], []⟩).1 7 rfl

/-- C7.  The vector_ref invariant over the tier-2 store: the freshly minted
row carries an embedding_id only when the vector write returned that point id
and the linking update completed, and then that point is live in the
VectorIndex afterwards; when the vector write raised or returned no point id,
the row's embedding_id stays unset while the row itself is stored and the
request still succeeds with storage_status.qdrant false in degraded mode
(nothing rolled back). -/
theorem memory_vector_ref_invariant (env : StoreEnv) (content agent : String)
    (st : SysState) (mid : Nat) (hmid : env.pgStoreId = some mid)
    (hfresh : ∀ rec ∈ st.pg, rec.id ≠ mid) :
    ∃ rec, rec ∈ (storeMemory env content agent st).2.pg ∧ rec.id = mid
      ∧ rec.content = content
      ∧ (∀ pid, rec.embedding_id = some pid →
          env.vectorWrite = .returned (some pid) ∧ env.updateOk = true
            ∧ (pid, mid) ∈ (storeMemory env content agent st).2.qdrant)
      ∧ ((env.vectorWrite = .raised ∨ env.vectorWrite = .returned none) →
          rec.embedding_id = none
            ∧ ∃ resp, (storeMemory env content agent st).1 = .ok resp
                ∧ resp.success = true ∧ resp.storage_qdrant = false
                ∧ resp.operational_mode = "degraded") := by
  have hstate := storeMemory_state_fresh env content agent st mid hmid hfresh
  refine ⟨⟨mid, content, agent, linkedEmbedding env⟩, ?_, rfl, rfl, ?_, ?_⟩
  · rw [hstate]
    simp
  · intro pid hpid
    cases henv : env.vectorWrite with
    | raised => rw [linkedEmbedding, henv] at hpid; cases hpid
    | returned popt =>
      cases popt with
      | none => rw [linkedEmbedding, henv] at hpid; cases hpid
      | some pid0 =>
        cases hupd : env.updateOk with
        | false => rw [linkedEmbedding, henv, hupd] at hpid; cases hpid
        | true =>
          rw [linkedEmbedding, henv, hupd] at hpid
          obtain rfl : pid0 = pid := by simpa using hpid
          refine ⟨rfl, rfl, ?_⟩
          rw [hstate]
          simp [henv]
  · intro hfail
    have hemb : linkedEmbedding env = none := by
      rcases hfail with h | h <;> rw [linkedEmbedding, h]
    have hq : qdrantEntry env = false := by
      rcases hfail with h | h <;> rw [qdrantEntry, h]
    refine ⟨hemb, _, storeMemory_run env content agent st mid hmid, rfl, hq, ?_⟩
    simp [hq]

/-- Witness for C7: the vector write raises; the stored row keeps
embedding_id unset and the request succeeds in degraded mode. -/
theorem memory_vector_ref_invariant_witness :
    ∃ rec, rec ∈ (storeMemory ⟨some 7, .raised, true, false, .raised⟩
        "red fox" "agentA" ⟨[], []⟩).2.pg ∧ rec.id = 7
      ∧ rec.content = "red fox"
      ∧ (∀ pid, rec.embedding_id = some pid →
          (VectorWrite.raised : VectorWrite) = .returned (some pid) ∧ true = true
            ∧ (pid, 7) ∈ (storeMemory ⟨some 7, .raised, true, false, .raised⟩
                "red fox" "agentA" ⟨[], []⟩).2.qdrant)
      ∧ (((VectorWrite.raised : VectorWrite) = .raised
            ∨ (VectorWrite.raised : VectorWrite) = .returned none) →
          rec.embedding_id = none
            ∧ ∃ resp, (storeMemory ⟨some 7, .raised, true, false, .raised⟩
                "red fox" "agentA" ⟨[], []⟩).1 = .ok resp
                ∧ resp.success = true ∧ resp.storage_qdrant = false
                ∧ resp.operational_mode = "degraded") :=
  memory_vector_ref_invariant ⟨some 7, .raised, true, false, .raised⟩
    "red fox" "agentA" ⟨[], []⟩ 7 rfl (by simp)

/-! ### Knowledge sharing (app/main.py offer_knowledge, lines 859-902, and
postgres_client.py lines 396-417, 450-475)

Confidence values are SQL floats; they are modelled as rationals, which
carries the same ordering on the decimal literals involved.
-/

/-- A row of the knowledge_share_requests table (postgres_client.py lines
43-53), as returned by get_knowledge_share_request_by_id. -/
structure KSRequest where
  id : Nat
  requester_agent_id : String
  target_agent_id : String
  query : String
  confidence_threshold : Rat
  sharing_policy : String
  status : String
  deriving DecidableEq, Repr

/-- A row of the knowledge_share_offers table (postgres_client.py lines
56-65); status defaults to pending on insert. -/
structure KSOffer where
  id : Nat
  request_id : Nat
  offering_agent_id : String
  memory_id : Nat
  confidence_score : Rat
  status : String
  deriving DecidableEq, Repr

/-- get_knowledge_share_request_by_id (postgres_client.py lines 450-475):
first row with the given id. -/
def getKnowledgeShareRequestById (requests : List KSRequest) (rid : Nat) :
    Option KSRequest :=
  requests.find? (fun r => r.id = rid)

/-- offer_knowledge (main.py lines 859-902): look up the referenced request
(404 when absent); under the high_confidence_only policy reject a score below
the threshold with HTTP 400 before anything is written (lines 871-876);
otherwise create_knowledge_share_offer appends a pending offer row with a
fresh autoincrement id (500 when the insert fails and returns None).
Returns the HTTP-level result (ok carries the minted offer id) together with
the offers table and the autoincrement counter afterwards. -/
def offerKnowledge (requests : List KSRequest) (offers : List KSOffer) (nextId : Nat)
    (createOk : Bool) (request_id : Nat) (agent : String) (memory_id : Nat)
    (score : Rat) : Except Nat Nat × List KSOffer × Nat :=
  match getKnowledgeShareRequestById requests request_id with
  | none => (.error 404, offers, nextId)
  | some req =>
    let created : Except Nat Nat × List KSOffer × Nat :=
      if createOk then
        (.ok nextId,
          offers ++ [⟨nextId, request_id, agent, memory_id, score, "pending"⟩],
          nextId + 1)
      else (.error 500, offers, nextId)
    if req.sharing_policy = "high_confidence_only" then
      if score < req.confidence_threshold then (.error 400, offers, nextId)
      else created
    else created

/-- C4.  For an offer whose referenced request exists: under policy
high_confidence_only a score strictly below the threshold is rejected with
HTTP 400 and the offers table is unchanged (no record created); under any
other policy, or with a score at or above the threshold, the offer is
accepted and a pending offer row is recorded (given the insert itself
succeeds). -/
theorem knowledge_offer_confidence_gate (requests : List KSRequest)
    (offers : List KSOffer) (nextId : Nat) (createOk : Bool) (request_id : Nat)
    (agent : String) (memory_id : Nat) (score : Rat) (req : KSRequest)
    (hreq : getKnowledgeShareRequestById requests request_id = some req) :
    (req.sharing_policy = "high_confidence_only" → score < req.confidence_threshold →
      (offerKnowledge requests offers nextId createOk request_id agent memory_id score).1
          = .error 400
        ∧ (offerKnowledge requests offers nextId createOk request_id agent memory_id
            score).2.1 = offers)
    ∧ ((req.sharing_policy ≠ "high_confidence_only" ∨ req.confidence_threshold ≤ score) →
        createOk = true →
        (offerKnowledge requests offers nextId createOk request_id agent memory_id
            score).1 = .ok nextId
          ∧ (offerKnowledge requests offers nextId createOk request_id agent memory_id
              score).2.1
            = offers ++ [⟨nextId, request_id, agent, memory_id, score, "pending"⟩]) := by
  constructor
  · intro hpol hlt
    constructor <;> simp [offerKnowledge, hreq, hpol, hlt]
  · intro hpass hcreate
    rcases hpass with hpol | hge
    · constructor <;> simp [offerKnowledge, hreq, hpol, hcreate]
    · have hnotlt : ¬ score < req.confidence_threshold := not_lt.2 hge
      by_cases hpol : req.sharing_policy = "high_confidence_only" <;>
        constructor <;> simp [offerKnowledge, hreq, hpol, hnotlt, hcreate]

/-- Witness for C4: a request with threshold 3/4 under high_confidence_only
rejects a 1/2-confidence offer without recording it, while the same offer
under all_confidence is recorded. -/
theorem knowledge_offer_confidence_gate_witness :
    ((offerKnowledge [⟨1, "agA", "agB", "q", 3/4, "high_confidence_only", "pending"⟩]
        [] 1 true 1 "agB" 42 (1/2)).1 = .error 400
      ∧ (offerKnowledge [⟨1, "agA", "agB", "q", 3/4, "high_confidence_only", "pending"⟩]
          [] 1 true 1 "agB" 42 (1/2)).2.1 = [])
    ∧ ((offerKnowledge [⟨1, "agA", "agB", "q", 3/4, "all_confidence", "pending"⟩]
        [] 1 true 1 "agB" 42 (1/2)).1 = .ok 1
      ∧ (offerKnowledge [⟨1, "agA", "agB", "q", 3/4, "all_confidence", "pending"⟩]
          [] 1 true 1 "agB" 42 (1/2)).2.1
        = [⟨1, 1, "agB", 42, 1/2, "pending"⟩]) := by
  constructor
  · exact (knowledge_offer_confidence_gate
      [⟨1, "agA", "agB", "q", 3/4, "high_confidence_only", "pending"⟩]
      [] 1 true 1 "agB" 42 (1/2)
      ⟨1, "agA", "agB", "q", 3/4, "high_confidence_only", "pending"⟩ rfl).1
      rfl (by norm_num)
  · exact (knowledge_offer_confidence_gate
      [⟨1, "agA", "agB", "q", 3/4, "all_confidence", "pending"⟩]
      [] 1 true 1 "agB" 42 (1/2)
      ⟨1, "agA", "agB", "q", 3/4, "all_confidence", "pending"⟩ rfl).2
      (Or.inl (by decide)) rfl

/-! ### GraphStore (app/services/neo4j_client.py)

create_memory_node has two modes.  Connected mode (lines 227-250) runs
CREATE (m:Memory {id: ...}) - a plain CREATE, not MERGE, so every call adds a
fresh Memory node instance - and then _create_concept_relationship (lines
417-427) per concept: MERGE the Concept by name, MATCH every Memory node with
the id, and MERGE a MENTIONS edge from each matched node.  Fallback mode
(lines 252-269) overwrites the memories dict entry, setdefaults each concept,
and unconditionally appends one relationship tuple per concept to the
relationships list.
-/

/-- A relationship tuple of the in-memory fallback store (neo4j_client.py
line 85: (from_type, from_id, rel_type, to_type, to_id, properties); the
properties dict is always empty for MENTIONS). -/
structure FallbackRel where
  from_type : String
  from_id : Nat
  rel_type : String
  to_type : String
  to_concept : String
  deriving DecidableEq, Repr

/-- A fallback memory node (neo4j_client.py lines 253-260; timestamps
omitted). -/
structure FallbackMemory where
  id : Nat
  content : String
  concepts : List String
  deriving DecidableEq, Repr

/-- The in-memory fallback store (neo4j_client.py lines 80-86). -/
structure FallbackGraph where
  memories : List FallbackMemory
  concepts : List String
  relationships : List FallbackRel
  deriving DecidableEq, Repr

/-- Python dict assignment memories[memory_id] = node: overwrite in place
when the key exists, else append. -/
def fallbackPutMemory (l : List FallbackMemory) (m : FallbackMemory) :
    List FallbackMemory :=
  if l.any (fun x => x.id = m.id) then
    l.map (fun x => if x.id = m.id then m else x)
  else l ++ [m]

/-- dict.setdefault on the concepts dict (keyed by concept name). -/
def setdefaultConcept (l : List String) (c : String) : List String :=
  if c ∈ l then l else l ++ [c]

/-- create_memory_node in fallback mode (neo4j_client.py lines 252-269). -/
def createMemoryNodeFallback (g : FallbackGraph) (memory_id : Nat) (content : String)
    (concepts : List String) : FallbackGraph :=
  { memories := fallbackPutMemory g.memories ⟨memory_id, content, concepts⟩
    concepts := concepts.foldl setdefaultConcept g.concepts
    relationships := g.relationships
      ++ concepts.map (fun c => ⟨"Memory", memory_id, "MENTIONS", "Concept", c⟩) }

/-- Connected-mode graph state: Memory node instances (CREATE mints a new
instance each call), Concept nodes merged by name, MENTIONS edges merged per
(memory instance, concept) pair. -/
structure Neo4jGraph where
  memNodes : List (Nat × Nat × String)
  conceptNodes : List String
  mentions : List (Nat × String)
  nextInstance : Nat
  deriving DecidableEq, Repr

/-- _create_concept_relationship in connected mode (neo4j_client.py lines
417-427): MERGE (c:Concept {name}), then MATCH (m:Memory {id}) and MERGE
(m)-[:MENTIONS]->(c) for every matched Memory node. -/
def createConceptRelationship (g : Neo4jGraph) (memory_id : Nat) (c : String) :
    Neo4jGraph :=
  let cs := if c ∈ g.conceptNodes then g.conceptNodes else g.conceptNodes ++ [c]
  let matched := g.memNodes.filter (fun n => n.2.1 = memory_id)
  let ms := matched.foldl
    (fun ms n => if (n.1, c) ∈ ms then ms else ms ++ [(n.1, c)]) g.mentions
  { g with conceptNodes := cs, mentions := ms }

/-- create_memory_node in connected mode (neo4j_client.py lines 227-250):
CREATE a fresh Memory node carrying the id property, then link each
concept. -/
def createMemoryNodeConnected (g : Neo4jGraph) (memory_id : Nat) (content : String)
    (concepts : List String) : Neo4jGraph :=
  let g1 : Neo4jGraph :=
    { g with
      memNodes := g.memNodes ++ [(g.nextInstance, memory_id, content)],
      nextInstance := g.nextInstance + 1 }
  concepts.foldl (fun g2 c => createConceptRelationship g2 memory_id c) g1

/-- Counterexample for C5: starting from empty stores, calling
create_memory_node twice with memory id 1 and concepts ["cat"] leaves two
MENTIONS tuples in the fallback store (not one), and two Memory node
instances with id 1 in the connected store (not one): the call is not
idempotent in either mode. -/
theorem graph_create_memory_node_idempotence_counterexample :
    ((createMemoryNodeFallback
        (createMemoryNodeFallback ⟨[], [], []⟩ 1 "m" ["cat"]) 1 "m" ["cat"]).relationships.countP
          (fun r => r = ⟨"Memory", 1, "MENTIONS", "Concept", "cat"⟩) = 2
      ∧ ¬ ((createMemoryNodeFallback
        (createMemoryNodeFallback ⟨[], [], []⟩ 1 "m" ["cat"]) 1 "m" ["cat"]).relationships.countP
          (fun r => r = ⟨"Memory", 1, "MENTIONS", "Concept", "cat"⟩) = 1))
    ∧ (((createMemoryNodeConnected
        (createMemoryNodeConnected ⟨[], [], [], 0⟩ 1 "m" ["cat"]) 1 "m" ["cat"]).memNodes.countP
          (fun n => n.2.1 = 1) = 2)
      ∧ ¬ (((createMemoryNodeConnected
        (createMemoryNodeConnected ⟨[], [], [], 0⟩ 1 "m" ["cat"]) 1 "m" ["cat"]).memNodes.countP
          (fun n => n.2.1 = 1)) = 1)) := by
  decide

theorem countP_eq_one_of_nodup_mem {α : Type} [DecidableEq α] (l : List α) (a : α)
    (hnd : l.Nodup) (hm : a ∈ l) :
    l.countP (fun x => x = a) = 1 := by
  induction l with
  | nil => cases hm
  | cons b l ih =>
    rcases List.mem_cons.1 hm with rfl | hm2
    · have hnotin : a ∉ l := (List.nodup_cons.1 hnd).1
      rw [List.countP_cons]
      simp only [decide_eq_true_eq]
      rw [List.countP_eq_zero.2 (fun x hx => by
        simp only [decide_eq_true_eq]
        exact fun heq => hnotin (heq ▸ hx))]
      simp
    · have hne : b ≠ a := by
        rintro rfl
        exact (List.nodup_cons.1 hnd).1 hm2
      rw [List.countP_cons]
      simp [hne, ih (List.nodup_cons.1 hnd).2 hm2]

theorem countP_put_self (l : List FallbackMemory) (m : FallbackMemory)
    (hnd : (l.map FallbackMemory.id).Nodup) :
    (fallbackPutMemory l m).countP (fun x => x.id = m.id) = 1 := by
  unfold fallbackPutMemory
  by_cases hany : l.any (fun x => x.id = m.id) = true
  · rw [if_pos hany, List.countP_map]
    have h1 : l.countP
        ((fun x : FallbackMemory => decide (x.id = m.id))
          ∘ (fun x => if x.id = m.id then m else x))
        = l.countP (fun x => decide (x.id = m.id)) := by
      refine List.countP_congr ?_
      intro x _
      by_cases hx : x.id = m.id <;> simp [Function.comp, hx]
    rw [h1]
    have h2 : l.countP (fun x => decide (x.id = m.id))
        = (l.map FallbackMemory.id).countP (fun i => decide (i = m.id)) := by
      rw [List.countP_map]
      rfl
    rw [h2]
    obtain ⟨x, hxl, hxid⟩ := List.any_eq_true.1 hany
    have hxid2 : x.id = m.id := by simpa using hxid
    exact countP_eq_one_of_nodup_mem _ m.id hnd
      (hxid2 ▸ List.mem_map_of_mem FallbackMemory.id hxl)
  · rw [if_neg hany, List.countP_append]
    have h0 : l.countP (fun x => decide (x.id = m.id)) = 0 := by
      rw [List.countP_eq_zero]
      intro x hx
      simp only [decide_eq_true_eq]
      intro heq
      exact hany (List.any_eq_true.2 ⟨x, hx, by simp [heq]⟩)
    simp [h0]

theorem put_nodup (l : List FallbackMemory) (m : FallbackMemory)
    (hnd : (l.map FallbackMemory.id).Nodup) :
    ((fallbackPutMemory l m).map FallbackMemory.id).Nodup := by
  unfold fallbackPutMemory
  by_cases hany : l.any (fun x => x.id = m.id) = true
  · rw [if_pos hany]
    have hmap : (l.map (fun x => if x.id = m.id then m else x)).map FallbackMemory.id
        = l.map FallbackMemory.id := by
      rw [List.map_map]
      refine List.map_congr_left ?_
      intro x _
      by_cases hxid : x.id = m.id <;> simp [Function.comp, hxid]
    rw [hmap]
    exact hnd
  · rw [if_neg hany, List.map_append]
    have hnotin : m.id ∉ l.map FallbackMemory.id := by
      intro hmem
      obtain ⟨x, hxl, hxid⟩ := List.mem_map.1 hmem
      exact hany (List.any_eq_true.2 ⟨x, hxl, by simp [hxid]⟩)
    simp [List.nodup_append, hnd, hnotin]

theorem foldl_setdefault_nodup (concepts : List String) :
    ∀ acc : List String, acc.Nodup → (concepts.foldl setdefaultConcept acc).Nodup := by
  induction concepts with
  | nil => intro acc h; simpa using h
  | cons d rest ih =>
    intro acc h
    rw [List.foldl_cons]
    refine ih _ ?_
    unfold setdefaultConcept
    by_cases hd : d ∈ acc
    · rw [if_pos hd]; exact h
    · rw [if_neg hd]
      simp [List.nodup_append, h, hd]

theorem ccr_memNodes (g : Neo4jGraph) (memory_id : Nat) (c : String) :
    (createConceptRelationship g memory_id c).memNodes = g.memNodes := by
  simp [createConceptRelationship]

theorem foldl_ccr_memNodes (concepts : List String) (memory_id : Nat) :
    ∀ g : Neo4jGraph,
      ((concepts.foldl (fun g2 c => createConceptRelationship g2 memory_id c) g).memNodes)
        = g.memNodes := by
  induction concepts with
  | nil => intro g; rfl
  | cons d rest ih =>
    intro g
    rw [List.foldl_cons, ih, ccr_memNodes]

/-- C5 amended.  Calling create_memory_node twice with the same memory id and
concepts is not idempotent.  In fallback mode the memories dict still holds
exactly one node under the id (dict overwrite) and the concepts dict stays
duplicate-free (setdefault), but each call appends a fresh MENTIONS tuple, so
a listed concept ends with two tuples more than before.  In connected mode
(from an empty graph, single concept) the plain CREATE leaves two Memory node
instances carrying the id and the MATCH-then-MERGE links both, leaving two
MENTIONS edges for the one concept. -/
theorem graph_create_memory_node_twice (g : FallbackGraph) (memory_id : Nat)
    (content : String) (concepts : List String) (c : String)
    (hc : c ∈ concepts) (hnd : concepts.Nodup)
    (hmemnd : (g.memories.map FallbackMemory.id).Nodup) :
    ((createMemoryNodeFallback (createMemoryNodeFallback g memory_id content concepts)
        memory_id content concepts).memories.countP (fun x => x.id = memory_id) = 1)
    ∧ ((createMemoryNodeFallback (createMemoryNodeFallback g memory_id content concepts)
        memory_id content concepts).relationships.countP
          (fun r => r = ⟨"Memory", memory_id, "MENTIONS", "Concept", c⟩)
        = g.relationships.countP
            (fun r => r = ⟨"Memory", memory_id, "MENTIONS", "Concept", c⟩) + 2)
    ∧ (g.concepts.Nodup →
        (createMemoryNodeFallback (createMemoryNodeFallback g memory_id content concepts)
          memory_id content concepts).concepts.Nodup)
    ∧ ((createMemoryNodeConnected (createMemoryNodeConnected ⟨[], [], [], 0⟩
        memory_id content [c]) memory_id content [c]).memNodes.countP
          (fun n => n.2.1 = memory_id) = 2)
    ∧ ((createMemoryNodeConnected (createMemoryNodeConnected ⟨[], [], [], 0⟩
        memory_id content [c]) memory_id content [c]).mentions = [(0, c), (1, c)]) := by
  have hone : concepts.countP (fun c2 => decide (c2 = c)) = 1 :=
    countP_eq_one_of_nodup_mem concepts c hnd hc
  have hnewcount : (concepts.map (fun c2 =>
      (⟨"Memory", memory_id, "MENTIONS", "Concept", c2⟩ : FallbackRel))).countP
        (fun r => r = ⟨"Memory", memory_id, "MENTIONS", "Concept", c⟩) = 1 := by
    rw [List.countP_map]
    rw [List.countP_congr (q := fun c2 => decide (c2 = c)) ?_]
    · exact hone
    · intro c2 _
      simp [Function.comp, FallbackRel.mk.injEq]
  refine ⟨?_, ?_, ?_, ?_, ?_⟩
  · show (fallbackPutMemory (fallbackPutMemory g.memories ⟨memory_id, content, concepts⟩)
        ⟨memory_id, content, concepts⟩).countP (fun x => x.id = memory_id) = 1
    exact countP_put_self _ ⟨memory_id, content, concepts⟩
      (put_nodup g.memories ⟨memory_id, content, concepts⟩ hmemnd)
  · show ((g.relationships ++ _) ++ _).countP _ = _
    rw [List.countP_append, List.countP_append, hnewcount]
  · intro hcn
    exact foldl_setdefault_nodup concepts _ (foldl_setdefault_nodup concepts g.concepts hcn)
  · simp [createMemoryNodeConnected, createConceptRelationship, List.countP_cons]
  · simp [createMemoryNodeConnected, createConceptRelationship]

/-- Witness for the amended C5 at concrete inputs. -/
theorem graph_create_memory_node_twice_witness :
    ((createMemoryNodeFallback (createMemoryNodeFallback ⟨[], ["old"], []⟩ 5 "txt" ["cat", "dog"])
        5 "txt" ["cat", "dog"]).memories.countP (fun x => x.id = 5) = 1)
    ∧ ((createMemoryNodeFallback (createMemoryNodeFallback ⟨[], ["old"], []⟩ 5 "txt" ["cat", "dog"])
        5 "txt" ["cat", "dog"]).relationships.countP
          (fun r => r = ⟨"Memory", 5, "MENTIONS", "Concept", "cat"⟩)
        = ([] : List FallbackRel).countP
            (fun r => r = ⟨"Memory", 5, "MENTIONS", "Concept", "cat"⟩) + 2)
    ∧ ((["old"] : List String).Nodup →
        (createMemoryNodeFallback (createMemoryNodeFallback ⟨[], ["old"], []⟩ 5 "txt" ["cat", "dog"])
          5 "txt" ["cat", "dog"]).concepts.Nodup)
    ∧ ((createMemoryNodeConnected (createMemoryNodeConnected ⟨[], [], [], 0⟩
        5 "txt" ["cat"]) 5 "txt" ["cat"]).memNodes.countP (fun n => n.2.1 = 5) = 2)
    ∧ ((createMemoryNodeConnected (createMemoryNodeConnected ⟨[], [], [], 0⟩
        5 "txt" ["cat"]) 5 "txt" ["cat"]).mentions = [(0, "cat"), (1, "cat")]) :=
  graph_create_memory_node_twice ⟨[], ["old"], []⟩ 5 "txt" ["cat", "dog"] "cat"
    (by decide) (by decide) (by decide)

/-! ### Cache keys and invalidation (app/services/redis_client.py)

Key construction: _get_namespaced_key prepends the APEX_NAMESPACE and a colon
(lines 94-96).  Query-result cache keys are built by _generate_cache_key
(lines 98-101), which md5-hashes the string "query:<text>:<top_k>" and
namespaces the bare hex digest - so a stored query key is <ns>:<hex> with no
query: segment.  Embedding keys are <ns>:embedding:<sha256-hex> (line 174),
working-memory keys <ns>:working_memory:<key> (line 224).

invalidate_memory_caches (lines 311-363) returns false untouched when redis
is not connected, else deletes, in order, every key matching the glob
patterns <ns>:query:*, <ns>:embedding:*, <ns>:working_memory:*, and - when
memory_id is truthy, i.e. nonzero - <ns>:*memory:<id>*, via SCAN/DEL
(redis_utils.scan_iter).  The keyspace is modelled as its list of keys.
-/

/-- Redis glob matching restricted to the star wildcard, the only glob
metacharacter appearing in the client's patterns: a star consumes any
(possibly empty) run of characters, i.e. the rest of the pattern must match
some suffix of the subject. -/
def globMatch : List Char → List Char → Bool
  | [], s => s.isEmpty
  | p :: ps, s =>
    if p = '*' then s.tails.any (fun t => globMatch ps t)
    else
      match s with
      | [] => false
      | c :: cs => decide (p = c) && globMatch ps cs

/-- Glob matching on strings (SCAN MATCH). -/
def globMatchStr (pattern s : String) : Bool := globMatch pattern.data s.data

/-- _get_namespaced_key (redis_client.py lines 94-96). -/
def namespacedKey (ns key : String) : String := ns ++ ":" ++ key

/-- A stored query-result cache key (lines 98-101, 114): the namespaced bare
md5 hex digest. -/
def queryCacheKey (ns md5hex : String) : String := namespacedKey ns md5hex

/-- A stored embedding cache key (line 174). -/
def embeddingCacheKey (ns sha : String) : String :=
  namespacedKey ns ("embedding:" ++ sha)

/-- A stored working-memory cache key (line 224). -/
def workingMemoryCacheKey (ns k : String) : String :=
  namespacedKey ns ("working_memory:" ++ k)

/-- invalidate_memory_caches (redis_client.py lines 311-363), as its effect
on the set of keys. -/
def invalidateMemoryCaches (connected : Bool) (ns : String) (memory_id : Nat)
    (keys : List String) : List String :=
  if connected = false then keys
  else
    let k1 := keys.filter (fun k => !globMatchStr (namespacedKey ns "query:*") k)
    let k2 := k1.filter (fun k => !globMatchStr (namespacedKey ns "embedding:*") k)
    let k3 := k2.filter
      (fun k => !globMatchStr (namespacedKey ns "working_memory:*") k)
    if memory_id ≠ 0 then
      k3.filter (fun k =>
        !globMatchStr (namespacedKey ns ("*memory:" ++ toString memory_id ++ "*")) k)
    else k3

/-- Counterexample for C6: on a keyspace holding a query-result entry (an
md5-digest key), an embedding entry and a working-memory entry, the
invalidation run by a successful tier-2 store of memory 7 deletes the
embedding key - the claim says embedding keys are kept unchanged - while the
query-result key survives, since the deletion pattern apex:query:* cannot
match the md5-digest form under which query results are stored. -/
theorem cache_invalidation_counterexample :
    (embeddingCacheKey "apex" "9f86d081884c7d65" ∈
        [queryCacheKey "apex" "5d41402abc4b2a76b9719d911017c592",
         embeddingCacheKey "apex" "9f86d081884c7d65",
         workingMemoryCacheKey "apex" "session1"])
    ∧ embeddingCacheKey "apex" "9f86d081884c7d65" ∉
        invalidateMemoryCaches true "apex" 7
          [queryCacheKey "apex" "5d41402abc4b2a76b9719d911017c592",
           embeddingCacheKey "apex" "9f86d081884c7d65",
           workingMemoryCacheKey "apex" "session1"]
    ∧ queryCacheKey "apex" "5d41402abc4b2a76b9719d911017c592" ∈
        invalidateMemoryCaches true "apex" 7
          [queryCacheKey "apex" "5d41402abc4b2a76b9719d911017c592",
           embeddingCacheKey "apex" "9f86d081884c7d65",
           workingMemoryCacheKey "apex" "session1"] := by
  decide

/-! ### Glob semantics lemmas -/

theorem globMatch_star_iff (ps s : List Char) :
    globMatch ('*' :: ps) s = true ↔
      ∃ s1 s2, s = s1 ++ s2 ∧ globMatch ps s2 = true := by
  show (if ('*' : Char) = '*' then s.tails.any (fun t => globMatch ps t)
      else _) = true ↔ _
  rw [if_pos rfl, List.any_eq_true]
  constructor
  · rintro ⟨t, ht, hm⟩
    obtain ⟨s1, rfl⟩ := (List.mem_tails t s).1 ht
    exact ⟨s1, t, rfl, hm⟩
  · rintro ⟨s1, s2, rfl, hm⟩
    exact ⟨s2, (List.mem_tails s2 (s1 ++ s2)).2 ⟨s1, rfl⟩, hm⟩

theorem globMatch_single_star (s : List Char) : globMatch ['*'] s = true := by
  rw [globMatch_star_iff]
  exact ⟨s, [], by simp, rfl⟩

theorem globMatch_append_starfree (p : List Char) (hp : ('*' : Char) ∉ p) :
    ∀ qs s, (globMatch (p ++ qs) s = true ↔
      ∃ s2, s = p ++ s2 ∧ globMatch qs s2 = true) := by
  induction p with
  | nil => intro qs s; simp
  | cons a pt ih =>
    intro qs s
    have ha : a ≠ '*' := fun h => hp (h ▸ List.mem_cons_self a pt)
    have hpt : ('*' : Char) ∉ pt := fun h => hp (List.mem_cons_of_mem a h)
    cases s with
    | nil =>
      show (if a = '*' then _ else _) = true ↔ _
      rw [if_neg ha]
      simp
    | cons c cs =>
      show (if a = '*' then _ else _) = true ↔ _
      rw [if_neg ha, Bool.and_eq_true, decide_eq_true_eq, List.append_eq,
        ih hpt qs cs]
      constructor
      · rintro ⟨hac, s2, hcs, hm⟩
        subst hac
        refine ⟨s2, ?_, hm⟩
        rw [List.cons_append, hcs]
      · rintro ⟨s2, heq, hm⟩
        rw [List.cons_append] at heq
        simp only [List.cons.injEq] at heq
        exact ⟨heq.1.symm, s2, heq.2, hm⟩

theorem globMatch_prefix_star (p : List Char) (hp : ('*' : Char) ∉ p) (s : List Char) :
    globMatch (p ++ ['*']) s = true ↔ List.IsPrefix p s := by
  rw [globMatch_append_starfree p hp]
  constructor
  · rintro ⟨s2, rfl, _⟩
    exact ⟨s2, rfl⟩
  · rintro ⟨s2, rfl⟩
    exact ⟨s2, rfl, globMatch_single_star s2⟩

/-- The hex alphabet of md5/sha256 digests (hashlib hexdigest output). -/
def isHexDigit (c : Char) : Bool := c ∈ "0123456789abcdef".data

theorem star_notin_ns_colon_lit (ns lit : String) (hns : ('*' : Char) ∉ ns.data)
    (hlit : ('*' : Char) ∉ lit.data) :
    ('*' : Char) ∉ (ns.data ++ ":".data) ++ lit.data := by
  intro h
  rcases List.mem_append.1 h with h | h
  · rcases List.mem_append.1 h with h | h
    · exact hns h
    · exact absurd h (by decide)
  · exact hlit h

theorem pattern_data_split (ns lit : String) :
    (namespacedKey ns (lit ++ "*")).data = ((ns.data ++ ":".data) ++ lit.data) ++ ['*'] := by
  simp only [namespacedKey, String.data_append, List.append_assoc]

theorem key_data_split (ns lit tail : String) :
    (namespacedKey ns (lit ++ tail)).data
      = ((ns.data ++ ":".data) ++ lit.data) ++ tail.data := by
  simp only [namespacedKey, String.data_append, List.append_assoc]

theorem prefix_pattern_matches (ns lit tail : String) (hns : ('*' : Char) ∉ ns.data)
    (hlit : ('*' : Char) ∉ lit.data) :
    globMatchStr (namespacedKey ns (lit ++ "*")) (namespacedKey ns (lit ++ tail)) = true := by
  show globMatch _ _ = true
  rw [pattern_data_split, key_data_split]
  exact (globMatch_prefix_star _ (star_notin_ns_colon_lit ns lit hns hlit) _).2
    ⟨tail.data, rfl⟩

theorem prefix_pattern_no_match_hex (ns lit md5 : String) (hns : ('*' : Char) ∉ ns.data)
    (hlit : ('*' : Char) ∉ lit.data) (bad : Char) (hbadmem : bad ∈ lit.data)
    (hbadhex : isHexDigit bad = false)
    (hhex : ∀ ch ∈ md5.data, isHexDigit ch = true) :
    globMatchStr (namespacedKey ns (lit ++ "*")) (queryCacheKey ns md5) = false := by
  rw [Bool.eq_false_iff]
  intro hmatch
  have hkey : (queryCacheKey ns md5).data = (ns.data ++ ":".data) ++ md5.data := by
    simp only [queryCacheKey, namespacedKey, String.data_append, List.append_assoc]
  rw [globMatchStr, pattern_data_split, hkey] at hmatch
  have hpre := (globMatch_prefix_star _ (star_notin_ns_colon_lit ns lit hns hlit) _).1 hmatch
  have hpre2 : List.IsPrefix lit.data md5.data :=
    (List.prefix_append_right_inj (ns.data ++ ":".data)).1 hpre
  obtain ⟨t, ht⟩ := hpre2
  have hmem : bad ∈ md5.data := ht ▸ List.mem_append_left t hbadmem
  rw [hhex bad hmem] at hbadhex
  cases hbadhex

theorem memory_pattern_no_match_hex (ns : String) (memory_id : Nat) (md5 : String)
    (hns : ('*' : Char) ∉ ns.data)
    (hhex : ∀ ch ∈ md5.data, isHexDigit ch = true) :
    globMatchStr (namespacedKey ns ("*memory:" ++ toString memory_id ++ "*"))
      (queryCacheKey ns md5) = false := by
  rw [Bool.eq_false_iff]
  intro hmatch
  have hpat : (namespacedKey ns ("*memory:" ++ toString memory_id ++ "*")).data
      = (ns.data ++ ":".data)
        ++ ('*' :: ("memory:".data ++ ((toString memory_id).data ++ ['*']))) := by
    simp only [namespacedKey, String.data_append, List.append_assoc]
    refine congrArg (fun l => ns.data ++ (":".data ++ l)) ?_
    rfl
  have hkey : (queryCacheKey ns md5).data = (ns.data ++ ":".data) ++ md5.data := by
    simp only [queryCacheKey, namespacedKey, String.data_append, List.append_assoc]
  rw [globMatchStr, hpat, hkey] at hmatch
  have hnsc : ('*' : Char) ∉ ns.data ++ ":".data := by
    intro h
    rcases List.mem_append.1 h with h | h
    · exact hns h
    · exact absurd h (by decide)
  obtain ⟨s2, heq, hrest⟩ := (globMatch_append_starfree _ hnsc _ _).1 hmatch
  have hs2 : s2 = md5.data := List.append_cancel_left heq.symm
  subst hs2
  obtain ⟨s1, s2b, heq2, hrest2⟩ := (globMatch_star_iff _ _).1 hrest
  obtain ⟨t, heq3, _⟩ := (globMatch_append_starfree ("memory:".data) (by decide) _ _).1 hrest2
  have hmmem : ('m' : Char) ∈ md5.data := by
    rw [heq2, heq3]
    exact List.mem_append_right s1 (List.mem_append_left t (by decide))
  have := hhex 'm' hmmem
  exact absurd this (by decide)

/-- C6 amended.  The invalidation run on a successful tier-2 store deletes
every key matching the namespaced patterns query:*, embedding:* and
working_memory:* plus every key containing memory:<id> - in particular every
cached embedding, including the one just cached for the stored content, and
every working-memory entry regardless of which memory it references - while
the query-result cache entries, stored under namespaced bare md5 hex digests,
match none of the deletion patterns and survive. -/
theorem cache_invalidation_actual_behavior (ns : String) (memory_id : Nat)
    (keys : List String) (hns : ('*' : Char) ∉ ns.data) (hmid : memory_id ≠ 0) :
    (∀ k, k ∈ invalidateMemoryCaches true ns memory_id keys ↔
      (k ∈ keys
        ∧ globMatchStr (namespacedKey ns "query:*") k = false
        ∧ globMatchStr (namespacedKey ns "embedding:*") k = false
        ∧ globMatchStr (namespacedKey ns "working_memory:*") k = false
        ∧ globMatchStr (namespacedKey ns ("*memory:" ++ toString memory_id ++ "*")) k
            = false))
    ∧ (∀ sha, embeddingCacheKey ns sha ∉ invalidateMemoryCaches true ns memory_id keys)
    ∧ (∀ w, workingMemoryCacheKey ns w ∉ invalidateMemoryCaches true ns memory_id keys)
    ∧ (∀ md5, (∀ ch ∈ md5.data, isHexDigit ch = true) →
        queryCacheKey ns md5 ∈ keys →
        queryCacheKey ns md5 ∈ invalidateMemoryCaches true ns memory_id keys) := by
  have hchar : ∀ k, k ∈ invalidateMemoryCaches true ns memory_id keys ↔
      (k ∈ keys
        ∧ globMatchStr (namespacedKey ns "query:*") k = false
        ∧ globMatchStr (namespacedKey ns "embedding:*") k = false
        ∧ globMatchStr (namespacedKey ns "working_memory:*") k = false
        ∧ globMatchStr (namespacedKey ns ("*memory:" ++ toString memory_id ++ "*")) k
            = false) := by
    intro k
    simp only [invalidateMemoryCaches]
    rw [if_neg (by simp), if_pos hmid]
    simp only [List.mem_filter, Bool.not_eq_true']
    tauto
  refine ⟨hchar, ?_, ?_, ?_⟩
  · intro sha hmem
    have h := ((hchar _).1 hmem).2.2.1
    have hm : globMatchStr (namespacedKey ns ("embedding:" ++ "*"))
        (namespacedKey ns ("embedding:" ++ sha)) = true :=
      prefix_pattern_matches ns "embedding:" sha hns (by decide)
    rw [show ("embedding:" ++ "*" : String) = "embedding:*" from rfl] at hm
    rw [show embeddingCacheKey ns sha = namespacedKey ns ("embedding:" ++ sha) from rfl]
      at h
    rw [h] at hm
    cases hm
  · intro w hmem
    have h := ((hchar _).1 hmem).2.2.2.1
    have hm : globMatchStr (namespacedKey ns ("working_memory:" ++ "*"))
        (namespacedKey ns ("working_memory:" ++ w)) = true :=
      prefix_pattern_matches ns "working_memory:" w hns (by decide)
    rw [show ("working_memory:" ++ "*" : String) = "working_memory:*" from rfl] at hm
    rw [show workingMemoryCacheKey ns w = namespacedKey ns ("working_memory:" ++ w)
      from rfl] at h
    rw [h] at hm
    cases hm
  · intro md5 hhex hmem
    refine (hchar _).2 ⟨hmem, ?_, ?_, ?_, ?_⟩
    · have := prefix_pattern_no_match_hex ns "query:" md5 hns (by decide) 'q'
        (by decide) (by decide) hhex
      rwa [show ("query:" ++ "*" : String) = "query:*" from rfl] at this
    · have := prefix_pattern_no_match_hex ns "embedding:" md5 hns (by decide) 'm'
        (by decide) (by decide) hhex
      rwa [show ("embedding:" ++ "*" : String) = "embedding:*" from rfl] at this
    · have := prefix_pattern_no_match_hex ns "working_memory:" md5 hns (by decide) 'w'
        (by decide) (by decide) hhex
      rwa [show ("working_memory:" ++ "*" : String) = "working_memory:*" from rfl]
        at this
    · exact memory_pattern_no_match_hex ns memory_id md5 hns hhex

/-- Witness for the amended C6: in the concrete keyspace of the
counterexample, the embedding key for the stored content is gone after
invalidation while the md5-keyed query-result entry survives. -/
theorem cache_invalidation_actual_behavior_witness :
    embeddingCacheKey "apex" "9f86d081884c7d65" ∉
        invalidateMemoryCaches true "apex" 7
          [queryCacheKey "apex" "5d41402abc4b2a76b9719d911017c592",
           embeddingCacheKey "apex" "9f86d081884c7d65",
           workingMemoryCacheKey "apex" "session1"]
    ∧ queryCacheKey "apex" "5d41402abc4b2a76b9719d911017c592" ∈
        invalidateMemoryCaches true "apex" 7
          [queryCacheKey "apex" "5d41402abc4b2a76b9719d911017c592",
           embeddingCacheKey "apex" "9f86d081884c7d65",
           workingMemoryCacheKey "apex" "session1"] := by
  constructor
  · exact (cache_invalidation_actual_behavior "apex" 7
      [queryCacheKey "apex" "5d41402abc4b2a76b9719d911017c592",
       embeddingCacheKey "apex" "9f86d081884c7d65",
       workingMemoryCacheKey "apex" "session1"] (by decide) (by decide)).2.1
      "9f86d081884c7d65"
  · exact (cache_invalidation_actual_behavior "apex" 7
      [queryCacheKey "apex" "5d41402abc4b2a76b9719d911017c592",
       embeddingCacheKey "apex" "9f86d081884c7d65",
       workingMemoryCacheKey "apex" "session1"] (by decide) (by decide)).2.2.2
      "5d41402abc4b2a76b9719d911017c592" (by decide) (by simp)

end MemOS
